import Mathlib

/-!
# Verification of the PPTX auto-fit layout engine (`pptx_mcp_server.py`)

Shallow embedding of the text auto-fit layout engine: the height estimator
(`estimate_text_height`), the group font-size solver (`find_optimal_font_size`),
the bullet normalizer (`clean_bullet_text`), the group classifier
(`get_shape_group`) and the orchestration in `modify_presentation`.

Embedding conventions:
* Python floats are modelled by exact rationals `ℚ`; the decimal literals of
  the source (`0.15`, `0.9`, `0.5`, `1.2`) become the rationals `15/100`,
  `9/10`, `1/2`, `6/5`.
* `python-pptx` lengths (`shape.width.inches`, `shape.height.inches`) are
  modelled directly in inches as `ℚ`.
* A Python function that can raise (`ZeroDivisionError` inside
  `estimate_text_height`, propagated through its callers) is modelled with
  `Option`: `none` is an uncaught exception.
* Python strings are Lean `String`s; `str.strip()` is modelled character by
  character (`stripChars`), `str.split('\n')` by `splitNl`, substring
  membership (`in`) by `hasSub`.
* The in-place mutation performed by `apply_text_with_formatting` in phase 3 of
  `modify_presentation` is modelled by returning the ordered list of apply
  actions `(entry, font size, line spacing)` that would be performed.
-/

namespace PptxMcp

/-! ## String helpers (Python `startswith`, `in`, `strip`, `split`) -/

/-- `hasPre needle hay` is Python `hay.startswith(needle)` on char lists. -/
def hasPre : List Char → List Char → Bool
  | [], _ => true
  | _ :: _, [] => false
  | a :: as, b :: bs => a == b && hasPre as bs

/-- `hasSub needle hay` is Python `needle in hay` on char lists. -/
def hasSub (needle : List Char) : List Char → Bool
  | [] => needle.isEmpty
  | b :: t => hasPre needle (b :: t) || hasSub needle t

/-- The whitespace characters stripped by Python `str.strip()` (ASCII part). -/
def pyIsSpace (c : Char) : Bool :=
  c == ' ' || c == '\t' || c == '\n' || c == '\r' || c == '\x0b' || c == '\x0c'

/-- Python `str.strip()` on a char list. -/
def stripChars (l : List Char) : List Char :=
  ((l.dropWhile pyIsSpace).reverse.dropWhile pyIsSpace).reverse

/-- Python `str.split('\n')` on a char list (always returns at least one piece). -/
def splitNl : List Char → List (List Char)
  | [] => [[]]
  | c :: rest =>
    if c = '\n' then [] :: splitNl rest
    else
      match splitNl rest with
      | [] => [[c]]
      | l :: ls => (c :: l) :: ls

/-- Python `text.count('\n')`. -/
def countNl (text : String) : ℤ :=
  (text.data.count '\n' : ℤ)

/-! ## Data model -/

/-- A slide shape as seen by the engine: its `name`, whether it carries a text
frame, the current text of that frame (`shape.text_frame.text`), and its
geometry in inches (`shape.width.inches`, `shape.height.inches`). -/
structure Shape where
  name : String
  hasTextFrame : Bool
  text : String
  width : ℚ
  height : ℚ
deriving DecidableEq, Repr

/-- `GROUP_1_SHAPES` from the source. -/
def GROUP_1_SHAPES : List String := ["contexte", "résultats", "travaux réalisés"]

/-- `GROUP_2_SHAPES` from the source. -/
def GROUP_2_SHAPES : List String := ["type de mission", "outils utilisés"]

/-- `DEFAULT_FONT_SIZE = 12`. -/
def DEFAULT_FONT_SIZE : ℤ := 12

/-- `MIN_FONT_SIZE = 8`. -/
def MIN_FONT_SIZE : ℤ := 8

/-- `MAX_FONT_SIZE = 14`. -/
def MAX_FONT_SIZE : ℤ := 14

/-- `LINE_SPACING = 1.2`. -/
def LINE_SPACING : ℚ := 6 / 5

/-- Python `str.lower()` (character-wise `Char.toLower`). -/
def pyLower (s : String) : String :=
  String.mk (s.data.map Char.toLower)

/-- `normalize_shape_name`: `name.lower().strip()`. -/
def normalize_shape_name (name : String) : String :=
  String.mk (stripChars (pyLower name).data)

/-- One keyword test of `get_shape_group`:
`keyword.lower() in shape_name_normalized or keyword.lower() in shape_text_normalized`. -/
def keywordMatch (keyword nameN textN : String) : Bool :=
  hasSub (pyLower keyword).data nameN.data || hasSub (pyLower keyword).data textN.data

/-- `get_shape_group`: group 1 for Contexte/Résultats/Travaux keywords, group 2
for Type de mission/Outils keywords, else `none`; `none` without a text frame. -/
def get_shape_group (sh : Shape) : Option ℕ :=
  if !sh.hasTextFrame then none
  else
    let nameN := normalize_shape_name sh.name
    let textN := if sh.text ≠ "" then normalize_shape_name sh.text else ""
    if GROUP_1_SHAPES.any (fun k => keywordMatch k nameN textN) then some 1
    else if GROUP_2_SHAPES.any (fun k => keywordMatch k nameN textN) then some 2
    else none

/-! ## Height estimator (`estimate_text_height`) -/

/-- `estimate_text_height(text, font_size, shape_width, line_spacing)`.

Returns `some (total_height_inches, total_lines)`, or `none` where the Python
raises `ZeroDivisionError`: at `72 / (font_size * 0.5)` when `font_size == 0`,
and at `text_length / chars_per_line` when `chars_per_line == 0` (zero width). -/
def estimate_text_height (text : String) (font_size : ℚ) (shape_width : ℚ)
    (line_spacing : ℚ) : Option (ℚ × ℤ) :=
  if font_size = 0 then none
  else
    let shape_width_points := shape_width * 72
    let effective_width := shape_width_points * (9 / 10)
    let chars_per_line := effective_width / (font_size * (1 / 2))
    if chars_per_line = 0 then none
    else
      let text_length : ℤ := (text.length : ℤ)
      let explicit_lines : ℤ := countNl text + 1
      let wrapped_lines : ℤ := Int.ceil ((text_length : ℚ) / chars_per_line)
      let total_lines : ℤ := max explicit_lines wrapped_lines
      let line_height_points := font_size * line_spacing
      let total_height_points := (total_lines : ℚ) * line_height_points
      some (total_height_points / 72, total_lines)

/-! ## Font size solver (`find_optimal_font_size`) -/

/-- `range(max_size, min_size - 1, -1)` as a list of integers. -/
def rangeDown (hi lo : ℤ) : List ℤ :=
  (List.range (hi + 1 - lo).toNat).map (fun (i : ℕ) => hi - (i : ℤ))

/-- The inner `for test_size in range(max_size, min_size - 1, -1)` loop of
`find_optimal_font_size`, over an explicit list of candidate sizes.

Result `none`: `estimate_text_height` raised; `some (some s)`: the loop broke
at the first fitting size `s`; `some none`: the loop fell through to its
`else` clause (no candidate fits). -/
def sizeLoop (text : String) (sh : Shape) (line_spacing : ℚ) : List ℤ → Option (Option ℤ)
  | [] => some none
  | s :: rest =>
    match estimate_text_height text (s : ℚ) sh.width line_spacing with
    | none => none
    | some (h, _) =>
      if h ≤ sh.height - sh.height * (15 / 100) then some (some s)
      else sizeLoop text sh line_spacing rest

/-- The outer `for text, shape in texts_and_shapes` loop of
`find_optimal_font_size`; `acc` is the running `optimal_size`. -/
def groupLoop (max_size min_size : ℤ) (line_spacing : ℚ) :
    List (String × Shape) → ℤ → Option ℤ
  | [], acc => some acc
  | (t, sh) :: rest, acc =>
    if t = "" ∨ sh.hasTextFrame = false then groupLoop max_size min_size line_spacing rest acc
    else
      match sizeLoop t sh line_spacing (rangeDown max_size min_size) with
      | none => none
      | some (some s) => groupLoop max_size min_size line_spacing rest (min acc s)
      | some none => groupLoop max_size min_size line_spacing rest min_size

/-- `find_optimal_font_size(texts_and_shapes, max_size, min_size, line_spacing)`.
`none` models a propagated `ZeroDivisionError` from the estimator. -/
def find_optimal_font_size (members : List (String × Shape)) (max_size min_size : ℤ)
    (line_spacing : ℚ) : Option ℤ :=
  if members.isEmpty then some max_size
  else groupLoop max_size min_size line_spacing members max_size

/-! ## Bullet normalizer (`clean_bullet_text`) -/

/-- The per-line marker stripping of `clean_bullet_text` (the `if/elif` chain),
applied to a line that has already been stripped. -/
def cleanLine (l : List Char) : List Char :=
  if hasPre ['•', ' '] l then l.drop 2
  else if hasPre ['•'] l then stripChars (l.drop 1)
  else if hasPre ['-', ' '] l then l.drop 2
  else if hasPre ['-'] l then stripChars (l.drop 1)
  else if hasPre ['*', ' '] l then l.drop 2
  else if hasPre ['*'] l then stripChars (l.drop 1)
  else l

/-- Python `'\n'.join(...)` on char lists. -/
def joinNl : List (List Char) → List Char
  | [] => []
  | [l] => l
  | l :: l2 :: ls => l ++ '\n' :: joinNl (l2 :: ls)

/-- `clean_bullet_text(text)`: split on `'\n'`, strip each line, drop blank
lines, strip one leading bullet marker, join with `'\n'`. -/
def clean_bullet_text (text : String) : String :=
  if text = "" then text
  else
    let lines := splitNl text.data
    let cleaned := lines.filterMap (fun l =>
      let s := stripChars l
      if s = [] then none else some (cleanLine s))
    String.mk (joinNl cleaned)

/-! ## Orchestrator (`modify_presentation`) -/

/-- One collected modification: the slide/shape coordinates of the target
(the identity of the mutated shape), the replacement text, and the shape. -/
structure Entry where
  slideIdx : ℕ
  shapeIdx : ℕ
  text : String
  shape : Shape
deriving DecidableEq, Repr

/-- Phase 1 dispatch of one `(new_text, shape)` pair into the three
accumulating lists (`group_1_data`, `group_2_data`, `other_shapes_data`). -/
def classifyEntry (acc : List Entry × List Entry × List Entry) (e : Entry) :
    List Entry × List Entry × List Entry :=
  match get_shape_group e.shape with
  | some 1 => (acc.1 ++ [e], acc.2.1, acc.2.2)
  | some 2 => (acc.1, acc.2.1 ++ [e], acc.2.2)
  | _ => (acc.1, acc.2.1, acc.2.2 ++ [e])

/-- Placeholder shape for the (unreachable) out-of-bounds `getD` defaults. -/
def defaultShape : Shape := ⟨"", false, "", 0, 0⟩

/-- Phase 1 processing of one slide entry of `modifications`: entries whose
slide index or shape index is out of range are skipped (`continue`). -/
def slideStep (prs : List (List Shape)) (acc : List Entry × List Entry × List Entry)
    (m : ℕ × List (ℕ × String)) : List Entry × List Entry × List Entry :=
  if m.1 < prs.length then
    let slide := prs.getD m.1 []
    m.2.foldl (fun acc2 p =>
      if p.1 < slide.length then
        classifyEntry acc2 ⟨m.1, p.1, p.2, slide.getD p.1 defaultShape⟩
      else acc2) acc
  else acc

/-- Phase 1 of `modify_presentation`: collect the shapes named by the
modification batch into `(group_1_data, group_2_data, other_shapes_data)`.
The `modifications` mapping is modelled with its `"slide_i"`/`"shape_j"` keys
already parsed to the indices `i`/`j`, in iteration (insertion) order. -/
def collectGroups (prs : List (List Shape)) (mods : List (ℕ × List (ℕ × String))) :
    List Entry × List Entry × List Entry :=
  mods.foldl (slideStep prs) ([], [], [])

/-- Phase 2 for one group: `DEFAULT_FONT_SIZE` when the group is empty, else
`find_optimal_font_size(data, MAX_FONT_SIZE, MIN_FONT_SIZE, LINE_SPACING)`. -/
def solveGroup (data : List Entry) : Option ℤ :=
  if data.isEmpty then some DEFAULT_FONT_SIZE
  else find_optimal_font_size (data.map fun e => (e.text, e.shape))
    MAX_FONT_SIZE MIN_FONT_SIZE LINE_SPACING

/-- The group-1 warning string (with `MIN_FONT_SIZE = 8` interpolated). -/
def GROUP_1_WARNING : String :=
  "⚠️ GROUPE 1 (Contexte, Résultats, Travaux) : Le texte est très dense. La police a été réduite au minimum (8pt). Pour améliorer la lisibilité, réduisez le contenu de ces cadres."

/-- The group-2 warning string (with `MIN_FONT_SIZE = 8` interpolated). -/
def GROUP_2_WARNING : String :=
  "⚠️ GROUPE 2 (Type de mission, Outils) : Le texte est très dense. La police a été réduite au minimum (8pt). Pour améliorer la lisibilité, réduisez le contenu de ces cadres."

/-- Sequencing of fallible steps over a list (the phase-3 loop over
`other_shapes_data`, where each individual solve may raise). -/
def mapOpt (f : α → Option β) : List α → Option (List β)
  | [] => some []
  | a :: t =>
    match f a, mapOpt f t with
    | some b, some bs => some (b :: bs)
    | _, _ => none

/-- Phases 2 and 3 of `modify_presentation`, as a function of the collected
triple `(group_1_data, group_2_data, other_shapes_data)`: solve both groups,
emit the warnings, and list the apply actions. -/
def modify_phase23 (c : List Entry × List Entry × List Entry) :
    Option (List String × List (Entry × ℤ × ℚ)) :=
  match solveGroup c.1, solveGroup c.2.1,
      mapOpt (fun e =>
        (find_optimal_font_size [(e.text, e.shape)] MAX_FONT_SIZE MIN_FONT_SIZE 1).map
          (fun sz => (e, sz, (1 : ℚ)))) c.2.2 with
  | some s1, some s2, some others =>
      some ((if ¬ c.1.isEmpty ∧ s1 = MIN_FONT_SIZE then [GROUP_1_WARNING] else []) ++
            (if ¬ c.2.1.isEmpty ∧ s2 = MIN_FONT_SIZE then [GROUP_2_WARNING] else []),
            (c.1.map fun e => (e, s1, LINE_SPACING)) ++
            (c.2.1.map fun e => (e, s2, LINE_SPACING)) ++ others)
  | _, _, _ => none

/-- `modify_presentation(prs, modifications)`.

Returns `some (warnings, actions)` where `actions` is the ordered list of
`apply_text_with_formatting` calls of phase 3, each as
`(entry, font size, line spacing)`: group 1 at its solved size with
`LINE_SPACING`, then group 2, then each remaining shape at its individually
solved size with line spacing `1.0`. `none` models a propagated
`ZeroDivisionError` from any solver call. -/
def modify_presentation (prs : List (List Shape)) (mods : List (ℕ × List (ℕ × String))) :
    Option (List String × List (Entry × ℤ × ℚ)) :=
  modify_phase23 (collectGroups prs mods)

/-! ## Spec-side definitions (for the refinement claim about the solver) -/

/-- Following the spec's words: a candidate size fits a member when its
estimated height is at most `shape.height * (1 - 0.15)`. A candidate at which
the estimator is undefined (raises) is not counted as fitting. -/
def fitsAt (text : String) (sh : Shape) (s : ℤ) (line_spacing : ℚ) : Bool :=
  match estimate_text_height text (s : ℚ) sh.width line_spacing with
  | none => false
  | some (h, _) => decide (h ≤ sh.height * (1 - 15 / 100))

/-- Following the spec's words: a member's best size is the largest integer
candidate in `[min_size, max_size]` (tested from `max_size` down to `min_size`
inclusive) that fits, or `min_size` if no candidate in that range fits. -/
def bestSizeSpec (text : String) (sh : Shape) (min_size max_size : ℤ)
    (line_spacing : ℚ) : ℤ :=
  ((rangeDown max_size min_size).find? (fun s => fitsAt text sh s line_spacing)).getD min_size

/-! ## Evaluation lemmas for the estimator and the solver loops -/

theorem cpl_ne_zero {fs w : ℚ} (hfs : fs ≠ 0) (hw : w ≠ 0) :
    w * 72 * (9 / 10) / (fs * (1 / 2)) ≠ (0 : ℚ) :=
  div_ne_zero (mul_ne_zero (mul_ne_zero hw (by norm_num)) (by norm_num))
    (mul_ne_zero hfs (by norm_num))

theorem estimate_text_height_eq {text : String} {fs w ls : ℚ} (hfs : fs ≠ 0) (hw : w ≠ 0) :
    estimate_text_height text fs w ls =
      some (((max (countNl text + 1)
            (Int.ceil (((text.length : ℤ) : ℚ) / (w * 72 * (9 / 10) / (fs * (1 / 2))))) : ℤ) : ℚ) *
          (fs * ls) / 72,
        max (countNl text + 1)
          (Int.ceil (((text.length : ℤ) : ℚ) / (w * 72 * (9 / 10) / (fs * (1 / 2)))))) := by
  simp only [estimate_text_height, if_neg hfs, if_neg (cpl_ne_zero hfs hw)]

theorem sizeLoop_cons_fit {t : String} {sh : Shape} {ls : ℚ} {s : ℤ} {rest : List ℤ}
    {h : ℚ} {n : ℤ} (hest : estimate_text_height t (s : ℚ) sh.width ls = some (h, n))
    (hfit : h ≤ sh.height - sh.height * (15 / 100)) :
    sizeLoop t sh ls (s :: rest) = some (some s) := by
  simp only [sizeLoop, hest, if_pos hfit]

theorem sizeLoop_cons_nofit {t : String} {sh : Shape} {ls : ℚ} {s : ℤ} {rest : List ℤ}
    {h : ℚ} {n : ℤ} (hest : estimate_text_height t (s : ℚ) sh.width ls = some (h, n))
    (hnofit : ¬ h ≤ sh.height - sh.height * (15 / 100)) :
    sizeLoop t sh ls (s :: rest) = sizeLoop t sh ls rest := by
  simp only [sizeLoop, hest, if_neg hnofit]

theorem sizeLoop_skip {t : String} {sh : Shape} {ls : ℚ} {l1 l2 : List ℤ}
    (hno : ∀ s ∈ l1, ∃ h n, estimate_text_height t (s : ℚ) sh.width ls = some (h, n) ∧
      ¬ h ≤ sh.height - sh.height * (15 / 100)) :
    sizeLoop t sh ls (l1 ++ l2) = sizeLoop t sh ls l2 := by
  induction l1 with
  | nil => rfl
  | cons a l ih =>
    obtain ⟨h, n, hest, hnofit⟩ := hno a (List.mem_cons_self a l)
    rw [List.cons_append, sizeLoop_cons_nofit hest hnofit,
      ih (fun s hs => hno s (List.mem_cons_of_mem a hs))]

theorem sizeLoop_all_nofit {t : String} {sh : Shape} {ls : ℚ} {l : List ℤ}
    (hno : ∀ s ∈ l, ∃ h n, estimate_text_height t (s : ℚ) sh.width ls = some (h, n) ∧
      ¬ h ≤ sh.height - sh.height * (15 / 100)) :
    sizeLoop t sh ls l = some none := by
  have h := @sizeLoop_skip t sh ls l [] hno
  rw [List.append_nil] at h
  rw [h]
  rfl

/-! ## Concrete inputs used by the scenario theorems -/

/-- The Scenario A/B frame: keyword "contexte", width 4in, height 2in. -/
def shapeScenB : Shape := ⟨"contexte", true, "", 4, 2⟩

/-- 600 repeated characters with no line breaks (Scenario B text). -/
def text600 : String := String.mk (List.replicate 600 'a')

/-- An ungrouped frame (its name and text match no group keyword). -/
def shapeNotes : Shape := ⟨"notes", true, "", 4, 2⟩

/-- 2000 repeated characters: does not fit this 4in × 2in frame at any
candidate size, so the individual solve is forced to the floor. -/
def text2000 : String := String.mk (List.replicate 2000 'a')

/-- A frame so short that not even empty text fits the height budget. -/
def shapeTiny : Shape := ⟨"tiny", true, "", 4, 1 / 10⟩

/-- A roomy frame on which one character fits at the maximum size. -/
def shapeWide : Shape := ⟨"wide", true, "", 4, 2⟩

/-! ## Structural lemmas about the solver loops -/

theorem mem_rangeDown {hi lo s : ℤ} : s ∈ rangeDown hi lo ↔ lo ≤ s ∧ s ≤ hi := by
  simp only [rangeDown]
  constructor
  · intro hs
    obtain ⟨i, hi', heq⟩ := List.mem_map.mp hs
    rw [List.mem_range] at hi'
    omega
  · intro h
    refine List.mem_map.mpr ⟨(hi - s).toNat, ?_, ?_⟩
    · rw [List.mem_range]
      omega
    · omega

theorem groupLoop_cons_skip {max_size min_size : ℤ} {ls : ℚ} {t : String} {sh : Shape}
    {rest : List (String × Shape)} {acc : ℤ} (hskip : t = "" ∨ sh.hasTextFrame = false) :
    groupLoop max_size min_size ls ((t, sh) :: rest) acc =
      groupLoop max_size min_size ls rest acc := by
  simp only [groupLoop, if_pos hskip]

theorem groupLoop_cons_raise {max_size min_size : ℤ} {ls : ℚ} {t : String} {sh : Shape}
    {rest : List (String × Shape)} {acc : ℤ} (hskip : ¬ (t = "" ∨ sh.hasTextFrame = false))
    (hsl : sizeLoop t sh ls (rangeDown max_size min_size) = none) :
    groupLoop max_size min_size ls ((t, sh) :: rest) acc = none := by
  simp only [groupLoop, if_neg hskip, hsl]

theorem groupLoop_cons_break {max_size min_size : ℤ} {ls : ℚ} {t : String} {sh : Shape}
    {rest : List (String × Shape)} {acc s : ℤ} (hskip : ¬ (t = "" ∨ sh.hasTextFrame = false))
    (hsl : sizeLoop t sh ls (rangeDown max_size min_size) = some (some s)) :
    groupLoop max_size min_size ls ((t, sh) :: rest) acc =
      groupLoop max_size min_size ls rest (min acc s) := by
  simp only [groupLoop, if_neg hskip, hsl]

theorem groupLoop_cons_forced {max_size min_size : ℤ} {ls : ℚ} {t : String} {sh : Shape}
    {rest : List (String × Shape)} {acc : ℤ} (hskip : ¬ (t = "" ∨ sh.hasTextFrame = false))
    (hsl : sizeLoop t sh ls (rangeDown max_size min_size) = some none) :
    groupLoop max_size min_size ls ((t, sh) :: rest) acc =
      groupLoop max_size min_size ls rest min_size := by
  simp only [groupLoop, if_neg hskip, hsl]

theorem sizeLoop_break_mem {t : String} {sh : Shape} {ls : ℚ} {s : ℤ} :
    ∀ {l : List ℤ}, sizeLoop t sh ls l = some (some s) → s ∈ l := by
  intro l
  induction l with
  | nil => intro h; simp [sizeLoop] at h
  | cons a rest ih =>
    intro h
    rcases hest : estimate_text_height t (a : ℚ) sh.width ls with _ | ⟨hh, n⟩
    · simp only [sizeLoop, hest] at h
      exact Option.noConfusion h
    · simp only [sizeLoop, hest] at h
      by_cases hfit : hh ≤ sh.height - sh.height * (15 / 100)
      · rw [if_pos hfit] at h
        simp only [Option.some.injEq] at h
        rw [← h]
        exact List.mem_cons_self a rest
      · rw [if_neg hfit] at h
        exact List.mem_cons_of_mem a (ih h)

theorem groupLoop_bounds {max_size min_size : ℤ} {ls : ℚ} :
    ∀ (l : List (String × Shape)) (acc r : ℤ), min_size ≤ acc → acc ≤ max_size →
      groupLoop max_size min_size ls l acc = some r → min_size ≤ r ∧ r ≤ max_size := by
  intro l
  induction l with
  | nil =>
    intro acc r h1 h2 h
    simp only [groupLoop, Option.some.injEq] at h
    rw [← h]
    exact ⟨h1, h2⟩
  | cons p rest ih =>
    obtain ⟨t, sh⟩ := p
    intro acc r h1 h2 h
    by_cases hskip : t = "" ∨ sh.hasTextFrame = false
    · rw [groupLoop_cons_skip hskip] at h
      exact ih acc r h1 h2 h
    · rcases hsl : sizeLoop t sh ls (rangeDown max_size min_size) with _ | (_ | s')
      · rw [groupLoop_cons_raise hskip hsl] at h
        exact Option.noConfusion h
      · rw [groupLoop_cons_forced hskip hsl] at h
        exact ih min_size r (le_refl _) (le_trans h1 h2) h
      · rw [groupLoop_cons_break hskip hsl] at h
        obtain ⟨hl, hh⟩ := mem_rangeDown.mp (sizeLoop_break_mem hsl)
        exact ih (min acc s') r (le_min h1 hl) (le_trans (min_le_left _ _) h2) h

theorem groupLoop_skip_member {max_size min_size : ℤ} {ls : ℚ} {t : String} {sh : Shape}
    (hskip : t = "" ∨ sh.hasTextFrame = false) :
    ∀ (m1 m2 : List (String × Shape)) (acc : ℤ),
      groupLoop max_size min_size ls (m1 ++ (t, sh) :: m2) acc =
        groupLoop max_size min_size ls (m1 ++ m2) acc := by
  intro m1
  induction m1 with
  | nil =>
    intro m2 acc
    rw [List.nil_append, List.nil_append, groupLoop_cons_skip hskip]
  | cons p m1' ih =>
    intro m2 acc
    obtain ⟨t', sh'⟩ := p
    rw [List.cons_append, List.cons_append]
    by_cases hskip' : t' = "" ∨ sh'.hasTextFrame = false
    · rw [groupLoop_cons_skip hskip', groupLoop_cons_skip hskip']
      exact ih m2 acc
    · rcases hsl : sizeLoop t' sh' ls (rangeDown max_size min_size) with _ | (_ | s')
      · rw [groupLoop_cons_raise hskip' hsl, groupLoop_cons_raise hskip' hsl]
      · rw [groupLoop_cons_forced hskip' hsl, groupLoop_cons_forced hskip' hsl]
        exact ih m2 min_size
      · rw [groupLoop_cons_break hskip' hsl, groupLoop_cons_break hskip' hsl]
        exact ih m2 (min acc s')

theorem groupLoop_all_skip {max_size min_size : ℤ} {ls : ℚ} :
    ∀ (l : List (String × Shape)) (acc : ℤ),
      (∀ p ∈ l, p.1 = "" ∨ p.2.hasTextFrame = false) →
      groupLoop max_size min_size ls l acc = some acc := by
  intro l
  induction l with
  | nil => intro acc _; rfl
  | cons p rest ih =>
    intro acc hall
    obtain ⟨t, sh⟩ := p
    rw [groupLoop_cons_skip (hall (t, sh) (List.mem_cons_self _ _))]
    exact ih acc (fun q hq => hall q (List.mem_cons_of_mem _ hq))

/-! ## Evaluation of the scenarios -/

theorem len2000 : ((text2000.length : ℤ)) = 2000 := by
  have h : text2000.length = (List.replicate 2000 'a').length := rfl
  rw [h, List.length_replicate]
  rfl

theorem nl2000 : countNl text2000 = 0 := by
  have h : countNl text2000 = (((List.replicate 2000 'a').count '\n' : ℕ) : ℤ) := rfl
  rw [h, List.count_replicate]
  norm_num
  decide

theorem text2000_ne_empty : text2000 ≠ "" := by
  intro h
  have h2 := congrArg String.length h
  rw [show text2000.length = (List.replicate 2000 'a').length from rfl,
    List.length_replicate] at h2
  simp [String.length] at h2

theorem rangeDown_14_8 : rangeDown 14 8 = [14, 13, 12, 11, 10, 9, 8] := by decide

/-- No candidate size in 8..14 fits `text2000` in the 4in × 2in frame at line
spacing 1: the estimated height is at least `625·s²/162/72 > 1.7`. -/
theorem est2000_nofit (s : ℤ) (h8 : 8 ≤ s) (h14 : s ≤ 14) :
    ∃ h n, estimate_text_height text2000 (s : ℚ) shapeNotes.width 1 = some (h, n) ∧
      ¬ h ≤ shapeNotes.height - shapeNotes.height * (15 / 100) := by
  have hs : (8 : ℚ) ≤ (s : ℚ) := by exact_mod_cast h8
  have hs0 : (0 : ℚ) ≤ (s : ℚ) := by linarith
  have hfs : ((s : ℚ)) ≠ 0 := by intro h; rw [h] at hs; norm_num at hs
  have hw : shapeNotes.width ≠ (0 : ℚ) := by norm_num [shapeNotes]
  refine ⟨_, _, estimate_text_height_eq hfs hw, ?_⟩
  rw [nl2000, len2000]
  simp only [shapeNotes]
  intro hle
  set W := Int.ceil (((2000 : ℤ) : ℚ) / ((4 : ℚ) * 72 * (9 / 10) / ((s : ℚ) * (1 / 2)))) with hWdef
  have hW : (((2000 : ℤ) : ℚ)) / ((4 : ℚ) * 72 * (9 / 10) / ((s : ℚ) * (1 / 2))) ≤ (W : ℚ) :=
    Int.le_ceil _
  rw [div_div_eq_mul_div] at hW
  have hmax : (W : ℚ) ≤ ((max (0 + 1) W : ℤ) : ℚ) := Int.cast_le.mpr (le_max_right (0 + 1) W)
  have p1 : (W : ℚ) * (s : ℚ) ≤ ((max (0 + 1) W : ℤ) : ℚ) * (s : ℚ) :=
    mul_le_mul_of_nonneg_right hmax hs0
  have p2 : (((2000 : ℤ) : ℚ)) * ((s : ℚ) * (1 / 2)) / ((4 : ℚ) * 72 * (9 / 10)) * (s : ℚ) ≤
      (W : ℚ) * (s : ℚ) := mul_le_mul_of_nonneg_right hW hs0
  have p3 : (8 : ℚ) * 8 ≤ (s : ℚ) * (s : ℚ) := mul_le_mul hs hs (by norm_num) hs0
  push_cast at p1 p2 p3 hle
  ring_nf at p1 p2 hle
  linarith [p1, p2, p3, hle]

/-- The individual solve of `text2000` in `shapeNotes` is forced to the floor. -/
theorem solve2000 : find_optimal_font_size [(text2000, shapeNotes)]
    MAX_FONT_SIZE MIN_FONT_SIZE 1 = some 8 := by
  have hsl : sizeLoop text2000 shapeNotes 1 (rangeDown MAX_FONT_SIZE MIN_FONT_SIZE) = some none := by
    apply sizeLoop_all_nofit
    intro s hs
    rw [MAX_FONT_SIZE, MIN_FONT_SIZE, rangeDown_14_8] at hs
    have hb : 8 ≤ s ∧ s ≤ 14 := by fin_cases hs <;> norm_num
    exact est2000_nofit s hb.1 hb.2
  have hne : ¬ (text2000 = "" ∨ shapeNotes.hasTextFrame = false) := by
    rintro (h | h)
    · exact text2000_ne_empty h
    · simp [shapeNotes] at h
  simp only [find_optimal_font_size, List.isEmpty_cons, Bool.false_eq_true, if_false,
    groupLoop, if_neg hne, hsl]
  rfl

theorem len600 : ((text600.length : ℤ)) = 600 := by
  have h : text600.length = (List.replicate 600 'a').length := rfl
  rw [h, List.length_replicate]
  rfl

theorem nl600 : countNl text600 = 0 := by
  have h : countNl text600 = (((List.replicate 600 'a').count '\n' : ℕ) : ℤ) := rfl
  rw [h, List.count_replicate]
  norm_num
  decide

theorem text600_ne_empty : text600 ≠ "" := by
  intro h
  have h2 := congrArg String.length h
  rw [show text600.length = (List.replicate 600 'a').length from rfl,
    List.length_replicate] at h2
  simp [String.length] at h2

/-- No candidate size in 10..14 fits `text600` in the 4in × 2in frame at line
spacing 1.2. -/
theorem est600_nofit (s : ℤ) (h10 : 10 ≤ s) (h14 : s ≤ 14) :
    ∃ h n, estimate_text_height text600 (s : ℚ) shapeScenB.width LINE_SPACING = some (h, n) ∧
      ¬ h ≤ shapeScenB.height - shapeScenB.height * (15 / 100) := by
  have hs : (10 : ℚ) ≤ (s : ℚ) := by exact_mod_cast h10
  have hs0 : (0 : ℚ) ≤ (s : ℚ) := by linarith
  have hfs : ((s : ℚ)) ≠ 0 := by intro h; rw [h] at hs; norm_num at hs
  have hw : shapeScenB.width ≠ (0 : ℚ) := by norm_num [shapeScenB]
  refine ⟨_, _, estimate_text_height_eq hfs hw, ?_⟩
  rw [nl600, len600]
  simp only [shapeScenB, LINE_SPACING]
  intro hle
  set W := Int.ceil (((600 : ℤ) : ℚ) / ((4 : ℚ) * 72 * (9 / 10) / ((s : ℚ) * (1 / 2)))) with hWdef
  have hW : (((600 : ℤ) : ℚ)) / ((4 : ℚ) * 72 * (9 / 10) / ((s : ℚ) * (1 / 2))) ≤ (W : ℚ) :=
    Int.le_ceil _
  rw [div_div_eq_mul_div] at hW
  have hmax : (W : ℚ) ≤ ((max (0 + 1) W : ℤ) : ℚ) := Int.cast_le.mpr (le_max_right (0 + 1) W)
  have p1 : (W : ℚ) * (s : ℚ) ≤ ((max (0 + 1) W : ℤ) : ℚ) * (s : ℚ) :=
    mul_le_mul_of_nonneg_right hmax hs0
  have p2 : (((600 : ℤ) : ℚ)) * ((s : ℚ) * (1 / 2)) / ((4 : ℚ) * 72 * (9 / 10)) * (s : ℚ) ≤
      (W : ℚ) * (s : ℚ) := mul_le_mul_of_nonneg_right hW hs0
  have p3 : (10 : ℚ) * 10 ≤ (s : ℚ) * (s : ℚ) := mul_le_mul hs hs (by norm_num) hs0
  push_cast at p1 p2 p3 hle
  ring_nf at p1 p2 hle
  linarith [p1, p2, p3, hle]

/-- At size 9, `text600` is estimated at 11 lines and height 1.65in. -/
theorem est600_9 : estimate_text_height text600 (((9 : ℤ)) : ℚ) shapeScenB.width LINE_SPACING =
    some (33 / 20, 11) := by
  have hw : shapeScenB.width ≠ (0 : ℚ) := by norm_num [shapeScenB]
  rw [estimate_text_height_eq (by norm_num) hw, nl600, len600]
  have harg : (((600 : ℤ) : ℚ)) / (shapeScenB.width * 72 * (9 / 10) / ((((9 : ℤ)) : ℚ) * (1 / 2))) =
      125 / 12 := by
    norm_num [shapeScenB]
  rw [harg]
  have hceil : Int.ceil ((125 : ℚ) / 12) = 11 := by
    rw [Int.ceil_eq_iff]
    norm_num
  rw [hceil, show max ((0 : ℤ) + 1) 11 = 11 from by decide]
  norm_num [LINE_SPACING]

/-- The Scenario B solve: the first fitting size is 9, not the floor 8. -/
theorem solve600 : find_optimal_font_size [(text600, shapeScenB)]
    MAX_FONT_SIZE MIN_FONT_SIZE LINE_SPACING = some 9 := by
  have hsplit : rangeDown MAX_FONT_SIZE MIN_FONT_SIZE = [14, 13, 12, 11, 10] ++ 9 :: [8] := by
    decide
  have hfit9 : ((33 : ℚ) / 20) ≤ shapeScenB.height - shapeScenB.height * (15 / 100) := by
    norm_num [shapeScenB]
  have hsl : sizeLoop text600 shapeScenB LINE_SPACING (rangeDown MAX_FONT_SIZE MIN_FONT_SIZE) =
      some (some 9) := by
    rw [hsplit, sizeLoop_skip, sizeLoop_cons_fit est600_9 hfit9]
    intro s hs
    fin_cases hs <;> exact est600_nofit _ (by norm_num) (by norm_num)
  have hne : ¬ (text600 = "" ∨ shapeScenB.hasTextFrame = false) := by
    rintro (h | h)
    · exact text600_ne_empty h
    · simp [shapeScenB] at h
  simp only [find_optimal_font_size, List.isEmpty_cons, Bool.false_eq_true, if_false,
    groupLoop, if_neg hne, hsl]
  rfl

/-- Empty text does not fit `shapeTiny` (height 0.1in) at any size ≥ 8. -/
theorem est_empty_tiny_nofit (s : ℤ) (h8 : 8 ≤ s) :
    ∃ h n, estimate_text_height "" (s : ℚ) shapeTiny.width LINE_SPACING = some (h, n) ∧
      ¬ h ≤ shapeTiny.height - shapeTiny.height * (15 / 100) := by
  have hs : (8 : ℚ) ≤ (s : ℚ) := by exact_mod_cast h8
  have hfs : ((s : ℚ)) ≠ 0 := by intro h; rw [h] at hs; norm_num at hs
  have hw : shapeTiny.width ≠ (0 : ℚ) := by norm_num [shapeTiny]
  refine ⟨_, _, estimate_text_height_eq hfs hw, ?_⟩
  have hl : ((("".length : ℤ)) : ℚ) = 0 := by norm_num [show "".length = 0 from rfl]
  have hn : countNl "" = 0 := rfl
  rw [hn, hl, zero_div, Int.ceil_zero, show max ((0 : ℤ) + 1) 0 = 1 from by decide]
  simp only [shapeTiny, LINE_SPACING]
  intro hle
  push_cast at hle
  linarith [hs, hle]

/-- One character fits `shapeWide` at size 14 (one line, height 7/30 in). -/
theorem est_x_wide_14 : estimate_text_height "x" (((14 : ℤ)) : ℚ) shapeWide.width LINE_SPACING =
    some (7 / 30, 1) := by
  have hw : shapeWide.width ≠ (0 : ℚ) := by norm_num [shapeWide]
  rw [estimate_text_height_eq (by norm_num) hw]
  have hl : (("x".length : ℤ)) = 1 := rfl
  have hn : countNl "x" = 0 := rfl
  rw [hn, hl]
  have harg : (((1 : ℤ) : ℚ)) / (shapeWide.width * 72 * (9 / 10) / ((((14 : ℤ)) : ℚ) * (1 / 2))) =
      35 / 1296 := by
    norm_num [shapeWide]
  rw [harg]
  have hceil : Int.ceil ((35 : ℚ) / 1296) = 1 := by
    rw [Int.ceil_eq_iff]
    norm_num
  rw [hceil, show max ((0 : ℤ) + 1) 1 = 1 from by decide]
  norm_num [LINE_SPACING]

/-- The solver on the tiny/wide pair: the empty-text member is skipped, the
"x" member fits at 14 immediately, so the result is 14. -/
theorem solveTinyWide : find_optimal_font_size [("", shapeTiny), ("x", shapeWide)]
    MAX_FONT_SIZE MIN_FONT_SIZE LINE_SPACING = some 14 := by
  have hsplit : rangeDown MAX_FONT_SIZE MIN_FONT_SIZE =
      14 :: [13, 12, 11, 10, 9, 8] := by decide
  have hfit : ((7 : ℚ) / 30) ≤ shapeWide.height - shapeWide.height * (15 / 100) := by
    norm_num [shapeWide]
  have hsl : sizeLoop "x" shapeWide LINE_SPACING (rangeDown MAX_FONT_SIZE MIN_FONT_SIZE) =
      some (some 14) := by
    rw [hsplit, sizeLoop_cons_fit est_x_wide_14 hfit]
  have hne : ¬ (("x" : String) = "" ∨ shapeWide.hasTextFrame = false) := by decide
  simp only [find_optimal_font_size, List.isEmpty_cons, Bool.false_eq_true, if_false,
    groupLoop, if_pos (Or.inl (rfl : ("" : String) = "")), if_neg hne, hsl]
  rfl

/-- Per the spec's formula the tiny member's best size is the floor 8. -/
theorem bestTiny : bestSizeSpec "" shapeTiny MIN_FONT_SIZE MAX_FONT_SIZE LINE_SPACING = 8 := by
  have hall : ∀ s ∈ rangeDown MAX_FONT_SIZE MIN_FONT_SIZE,
      ¬ (fitsAt "" shapeTiny s LINE_SPACING = true) := by
    intro s hs
    obtain ⟨hlo, hhi⟩ := mem_rangeDown.mp hs
    obtain ⟨h, n, hest, hnofit⟩ := est_empty_tiny_nofit s hlo
    simp only [fitsAt, hest, decide_eq_true_eq]
    have heq : shapeTiny.height * (1 - 15 / 100) =
        shapeTiny.height - shapeTiny.height * (15 / 100) := by ring
    rw [heq]
    exact hnofit
  rw [bestSizeSpec, List.find?_eq_none.mpr hall, Option.getD_none]
  rfl

/-- Per the spec's formula the wide member's best size is 14. -/
theorem bestWide : bestSizeSpec "x" shapeWide MIN_FONT_SIZE MAX_FONT_SIZE LINE_SPACING = 14 := by
  have hsplit : rangeDown MAX_FONT_SIZE MIN_FONT_SIZE =
      14 :: [13, 12, 11, 10, 9, 8] := by decide
  have hfit : fitsAt "x" shapeWide 14 LINE_SPACING = true := by
    simp only [fitsAt, est_x_wide_14, decide_eq_true_eq]
    norm_num [shapeWide]
  rw [bestSizeSpec, hsplit]
  simp only [List.find?, hfit]
  rfl

/-! ## Orchestrator evaluations -/

theorem group_scenB : get_shape_group shapeScenB = some 1 := by decide

theorem group_notes : get_shape_group shapeNotes = none := by decide

theorem collectScenB : collectGroups [[shapeScenB]] [(0, [(0, text600)])] =
    ([⟨0, 0, text600, shapeScenB⟩], [], []) := by
  simp [collectGroups, slideStep, classifyEntry, group_scenB]

theorem collectNotes : collectGroups [[shapeNotes]] [(0, [(0, text2000)])] =
    ([], [], [⟨0, 0, text2000, shapeNotes⟩]) := by
  simp [collectGroups, slideStep, classifyEntry, group_notes]

theorem modifyScenB : modify_presentation [[shapeScenB]] [(0, [(0, text600)])] =
    some ([], [(⟨0, 0, text600, shapeScenB⟩, 9, LINE_SPACING)]) := by
  rw [modify_presentation, collectScenB]
  simp only [modify_phase23, solveGroup, List.isEmpty_cons, List.isEmpty_nil,
    Bool.false_eq_true, if_false, if_true, List.map_cons, List.map_nil, solve600, mapOpt]
  norm_num [MIN_FONT_SIZE]

theorem modifyNotes : modify_presentation [[shapeNotes]] [(0, [(0, text2000)])] =
    some ([], [(⟨0, 0, text2000, shapeNotes⟩, MIN_FONT_SIZE, 1)]) := by
  have hsolve : (find_optimal_font_size [(text2000, shapeNotes)] MAX_FONT_SIZE MIN_FONT_SIZE 1).map
      (fun sz => ((⟨0, 0, text2000, shapeNotes⟩ : Entry), sz, (1 : ℚ))) =
      some (⟨0, 0, text2000, shapeNotes⟩, 8, 1) := by
    rw [solve2000]
    rfl
  rw [modify_presentation, collectNotes]
  simp only [modify_phase23, mapOpt]
  rw [hsolve]
  simp only [solveGroup, List.isEmpty_nil, if_true, ite_true]
  norm_num [MIN_FONT_SIZE]

/-! ## C1 -/

/-- C1 (counterexample): the claimed identity "result = minimum over all
members of that member's best size" fails when a member has empty text: the
code skips it, while its best size per the claim's formula is `minSize` (empty
text does not fit `shapeTiny` at any candidate size). The solver returns 14,
the claimed minimum is 8. -/
theorem solver_min_formula_fails_on_empty_text_member :
    find_optimal_font_size [("", shapeTiny), ("x", shapeWide)]
      MAX_FONT_SIZE MIN_FONT_SIZE LINE_SPACING = some 14 ∧
    min (bestSizeSpec "" shapeTiny MIN_FONT_SIZE MAX_FONT_SIZE LINE_SPACING)
      (bestSizeSpec "x" shapeWide MIN_FONT_SIZE MAX_FONT_SIZE LINE_SPACING) = 8 := by
  refine ⟨solveTinyWide, ?_⟩
  rw [bestTiny, bestWide]
  decide

/-! ## C2 -/

/-- C2 (counterexample): for the Scenario B frame (4in × 2in, keyword
"contexte") and 600 break-free characters with `min = 8`, `max = 14`, line
spacing 1.2, the solver does not walk down to 8: size 9 already fits (11
estimated lines, height 1.65in ≤ 1.7in available), so it returns 9. -/
theorem scenarioB_solver_returns_nine :
    find_optimal_font_size [(text600, shapeScenB)]
      MAX_FONT_SIZE MIN_FONT_SIZE LINE_SPACING = some 9 :=
  solve600

/-- C2 (amended): running the whole engine on Scenario B, the group solves to
font size 9 (not the minimum 8) and no warning at all is emitted. -/
theorem scenarioB_modify_no_warning :
    modify_presentation [[shapeScenB]] [(0, [(0, text600)])] =
      some ([], [(⟨0, 0, text600, shapeScenB⟩, 9, LINE_SPACING)]) :=
  modifyScenB

/-! ## C3 -/

/-- C3 (counterexample): bullet normalization is not idempotent: a line
starting with a doubled marker loses one marker per application, so
`clean_bullet_text (clean_bullet_text "• • x") = "x"` while
`clean_bullet_text "• • x" = "• x"`. -/
theorem clean_bullet_text_not_idempotent :
    clean_bullet_text (clean_bullet_text "• • x") ≠ clean_bullet_text "• • x" := by
  decide

/-! ## C4 -/

/-- C4 (counterexample): the estimator does not fail fast for every
`fontSize <= 0`: at `fontSize = -1` it silently returns a value (a negative
height), contradicting "never ... returns a value". -/
theorem estimator_returns_value_at_negative_size :
    estimate_text_height "x" (-1) 4 LINE_SPACING = some (-(1 / 60), 1) := by
  rw [estimate_text_height_eq (by norm_num) (by norm_num),
    show countNl "x" = 0 from rfl, show (("x".length : ℤ)) = 1 from rfl]
  have harg : (((1 : ℤ) : ℚ)) / ((4 : ℚ) * 72 * (9 / 10) / ((-1 : ℚ) * (1 / 2))) =
      -(5 / 2592) := by norm_num
  rw [harg, show Int.ceil (-(5 / 2592) : ℚ) = 0 from by rw [Int.ceil_eq_iff] <;> norm_num,
    show max ((0 : ℤ) + 1) 0 = 1 from by decide]
  norm_num [LINE_SPACING]

/-- C4 (amended): the estimator fails fast (with a `ZeroDivisionError`, not an
`InvalidArgument`) exactly for `fontSize = 0`; a negative `fontSize` is not
rejected: whenever the frame width is nonzero the estimator silently returns a
value. -/
theorem estimator_zero_raises_negative_returns :
    (∀ (text : String) (w ls : ℚ), estimate_text_height text 0 w ls = none) ∧
    (∀ (text : String) (fs w ls : ℚ), fs < 0 → w ≠ 0 →
      (estimate_text_height text fs w ls).isSome = true) := by
  constructor
  · intro text w ls
    simp [estimate_text_height]
  · intro text fs w ls hfs hw
    rw [estimate_text_height_eq (ne_of_lt hfs) hw]
    rfl

/-- C4 (witness): the amended theorem applied at `fontSize = -1`, width 4. -/
theorem estimator_zero_raises_negative_returns_witness :
    (estimate_text_height "xy" (-1) 4 LINE_SPACING).isSome = true :=
  estimator_zero_raises_negative_returns.2 "xy" (-1) 4 LINE_SPACING
    (by norm_num) (by norm_num)

/-! ## C6 -/

/-- C6 (counterexample): with a negative line spacing the height estimate is
not non-decreasing in the font size: at sizes 1 ≤ 2 (text "x", width 4,
line spacing −1) the heights are −1/72 and −1/36, and −1/72 ≤ −1/36 fails. -/
theorem estimator_not_monotone_with_negative_spacing :
    estimate_text_height "x" 1 4 (-1) = some (-(1 / 72), 1) ∧
    estimate_text_height "x" 2 4 (-1) = some (-(1 / 36), 1) ∧
    ¬ ((-(1 / 72) : ℚ) ≤ -(1 / 36)) := by
  refine ⟨?_, ?_, by norm_num⟩
  · rw [estimate_text_height_eq (by norm_num) (by norm_num),
      show countNl "x" = 0 from rfl, show (("x".length : ℤ)) = 1 from rfl]
    have harg : (((1 : ℤ) : ℚ)) / ((4 : ℚ) * 72 * (9 / 10) / ((1 : ℚ) * (1 / 2))) =
        5 / 2592 := by norm_num
    rw [harg, show Int.ceil ((5 / 2592) : ℚ) = 1 from by rw [Int.ceil_eq_iff] <;> norm_num,
      show max ((0 : ℤ) + 1) 1 = 1 from by decide]
    norm_num
  · rw [estimate_text_height_eq (by norm_num) (by norm_num),
      show countNl "x" = 0 from rfl, show (("x".length : ℤ)) = 1 from rfl]
    have harg : (((1 : ℤ) : ℚ)) / ((4 : ℚ) * 72 * (9 / 10) / ((2 : ℚ) * (1 / 2))) =
        5 / 1296 := by norm_num
    rw [harg, show Int.ceil ((5 / 1296) : ℚ) = 1 from by rw [Int.ceil_eq_iff] <;> norm_num,
      show max ((0 : ℤ) + 1) 1 = 1 from by decide]
    norm_num

/-! ## C7 -/

/-- C7 (counterexample): an individual (ungrouped) frame whose text fits at no
candidate size above the floor — no size in 9..14 fits `text2000` in
`shapeNotes` — is applied at the floor size 8, yet the engine emits no warning
at all, contradicting "reports a warning string for that frame, just as it
does for groups". -/
theorem forced_individual_frame_gets_no_warning :
    ((rangeDown MAX_FONT_SIZE 9).all fun s => !fitsAt text2000 shapeNotes s 1) = true ∧
    modify_presentation [[shapeNotes]] [(0, [(0, text2000)])] =
      some ([], [(⟨0, 0, text2000, shapeNotes⟩, MIN_FONT_SIZE, 1)]) := by
  refine ⟨?_, modifyNotes⟩
  rw [List.all_eq_true]
  intro s hs
  obtain ⟨hlo, hhi⟩ := mem_rangeDown.mp hs
  obtain ⟨h, n, hest, hnofit⟩ := est2000_nofit s (by omega) hhi
  simp only [fitsAt, hest, Bool.not_eq_true', decide_eq_false_iff_not]
  have heq : shapeNotes.height * (1 - 15 / 100) =
      shapeNotes.height - shapeNotes.height * (15 / 100) := by ring
  rw [heq]
  exact hnofit

/-! ## C5 -/

/-- C5: for every member list and `minSize <= maxSize`, whenever
`find_optimal_font_size` returns a font size, it lies in `[minSize, maxSize]`
inclusive. -/
theorem solver_result_within_bounds :
    ∀ (members : List (String × Shape)) (max_size min_size : ℤ) (ls : ℚ) (r : ℤ),
      min_size ≤ max_size → find_optimal_font_size members max_size min_size ls = some r →
      min_size ≤ r ∧ r ≤ max_size := by
  intro members max_size min_size ls r hmm h
  by_cases he : members.isEmpty = true
  · rw [find_optimal_font_size, if_pos he] at h
    simp only [Option.some.injEq] at h
    rw [← h]
    exact ⟨hmm, le_refl _⟩
  · rw [find_optimal_font_size, if_neg he] at h
    exact groupLoop_bounds members max_size r hmm (le_refl _) h

/-- C5 (witness): the bounds theorem applied to the empty group with
`min = 8 ≤ 14 = max`, where the solver returns `maxSize = 14`. -/
theorem solver_result_within_bounds_witness : (8 : ℤ) ≤ 14 ∧ (14 : ℤ) ≤ 14 :=
  solver_result_within_bounds [] 14 8 1 14 (by norm_num) rfl

/-! ## C9 -/

/-- C9: `find_optimal_font_size` skips members with empty text or without a
text frame: removing such a member never changes the result, and a group of
only such members yields `maxSize`. -/
theorem solver_skips_empty_members :
    ∀ (max_size min_size : ℤ) (ls : ℚ),
      (∀ (m1 m2 : List (String × Shape)) (t : String) (sh : Shape),
        t = "" ∨ sh.hasTextFrame = false →
        find_optimal_font_size (m1 ++ (t, sh) :: m2) max_size min_size ls =
          find_optimal_font_size (m1 ++ m2) max_size min_size ls) ∧
      (∀ members : List (String × Shape),
        (∀ p ∈ members, p.1 = "" ∨ p.2.hasTextFrame = false) →
        find_optimal_font_size members max_size min_size ls = some max_size) := by
  intro max_size min_size ls
  constructor
  · intro m1 m2 t sh hskip
    have h1 : (m1 ++ (t, sh) :: m2).isEmpty = false := by
      rw [List.isEmpty_eq_false]
      simp
    rw [find_optimal_font_size, find_optimal_font_size, h1]
    by_cases h2 : (m1 ++ m2).isEmpty = true
    · rw [if_pos h2]
      rw [List.isEmpty_iff, List.append_eq_nil] at h2
      obtain ⟨rfl, rfl⟩ := h2
      simp only [Bool.false_eq_true, if_false, List.nil_append]
      rw [groupLoop_cons_skip hskip]
      rfl
    · simp only [Bool.false_eq_true, if_false, if_neg h2]
      exact groupLoop_skip_member hskip m1 m2 max_size
  · intro members hall
    cases members with
    | nil => rfl
    | cons p rest =>
      rw [find_optimal_font_size]
      simp only [List.isEmpty_cons, Bool.false_eq_true, if_false]
      exact groupLoop_all_skip (p :: rest) max_size hall

/-- C9 (witness): removing the empty-text member from a singleton group leaves
the solver result unchanged, and that group of only skipped members yields
`maxSize = 14`. -/
theorem solver_skips_empty_members_witness :
    find_optimal_font_size ([] ++ ("", shapeTiny) :: []) 14 8 1 =
      find_optimal_font_size ([] ++ []) 14 8 1 ∧
    find_optimal_font_size [("", shapeTiny)] 14 8 1 = some 14 :=
  ⟨(solver_skips_empty_members 14 8 1).1 [] [] "" shapeTiny (Or.inl rfl),
   (solver_skips_empty_members 14 8 1).2 [("", shapeTiny)] (by
      intro p hp
      rw [List.mem_singleton] at hp
      rw [hp]
      exact Or.inl rfl)⟩

/-! ## C10 -/

theorem foldl_skip_middle {α β : Type} (f : β → α → β) (x : α)
    (h : ∀ acc, f acc x = acc) :
    ∀ (m1 m2 : List α) (a : β), (m1 ++ x :: m2).foldl f a = (m1 ++ m2).foldl f a := by
  intro m1
  induction m1 with
  | nil =>
    intro m2 a
    rw [List.nil_append, List.nil_append, List.foldl_cons, h]
  | cons z m1' ih =>
    intro m2 a
    rw [List.cons_append, List.cons_append, List.foldl_cons, List.foldl_cons]
    exact ih m2 (f a z)

theorem foldl_congr_middle {α β : Type} (f : β → α → β) (x y : α)
    (h : ∀ acc, f acc x = f acc y) :
    ∀ (m1 m2 : List α) (a : β),
      (m1 ++ x :: m2).foldl f a = (m1 ++ y :: m2).foldl f a := by
  intro m1
  induction m1 with
  | nil =>
    intro m2 a
    rw [List.nil_append, List.nil_append, List.foldl_cons, List.foldl_cons, h]
  | cons z m1' ih =>
    intro m2 a
    rw [List.cons_append, List.cons_append, List.foldl_cons, List.foldl_cons]
    exact ih m2 (f a z)

theorem slideStep_out_of_range {prs : List (List Shape)} {m : ℕ × List (ℕ × String)}
    (h : prs.length ≤ m.1) (acc : List Entry × List Entry × List Entry) :
    slideStep prs acc m = acc := by
  rw [slideStep, if_neg (by omega : ¬ m.1 < prs.length)]

theorem slideStep_shape_out_of_range {prs : List (List Shape)} {sn kn : ℕ} {t : String}
    {i1 i2 : List (ℕ × String)} (h : (prs.getD sn []).length ≤ kn)
    (acc : List Entry × List Entry × List Entry) :
    slideStep prs acc (sn, i1 ++ (kn, t) :: i2) = slideStep prs acc (sn, i1 ++ i2) := by
  rw [slideStep, slideStep]
  by_cases hs : sn < prs.length
  · rw [if_pos hs, if_pos hs]
    exact foldl_skip_middle _ (kn, t)
      (fun acc2 => by rw [if_neg (by omega : ¬ kn < (prs.getD sn []).length)]) i1 i2 acc
  · rw [if_neg hs, if_neg hs]

/-- C10: an out-of-range modification entry — a slide index at or beyond the
slide count, or a shape index at or beyond the slide's shape count — is
silently skipped: it joins no group, causes no error or warning, and produces
no apply action, so the whole result of `modify_presentation` is as if the
entry were absent. -/
theorem out_of_range_entries_skipped :
    (∀ (prs : List (List Shape)) (m1 m2 : List (ℕ × List (ℕ × String))) (sn : ℕ)
       (sm : List (ℕ × String)), prs.length ≤ sn →
       modify_presentation prs (m1 ++ (sn, sm) :: m2) =
         modify_presentation prs (m1 ++ m2)) ∧
    (∀ (prs : List (List Shape)) (m1 m2 : List (ℕ × List (ℕ × String))) (sn : ℕ)
       (i1 i2 : List (ℕ × String)) (kn : ℕ) (t : String),
       (prs.getD sn []).length ≤ kn →
       modify_presentation prs (m1 ++ (sn, i1 ++ (kn, t) :: i2) :: m2) =
         modify_presentation prs (m1 ++ (sn, i1 ++ i2) :: m2)) := by
  constructor
  · intro prs m1 m2 sn sm h
    rw [modify_presentation, modify_presentation, collectGroups, collectGroups]
    rw [foldl_skip_middle (slideStep prs) (sn, sm) (slideStep_out_of_range h) m1 m2]
  · intro prs m1 m2 sn i1 i2 kn t h
    rw [modify_presentation, modify_presentation, collectGroups, collectGroups]
    rw [foldl_congr_middle (slideStep prs) (sn, i1 ++ (kn, t) :: i2) (sn, i1 ++ i2)
      (slideStep_shape_out_of_range h) m1 m2]

/-- C10 (witness): a slide index 5 on a one-slide presentation and a shape
index 3 on a one-shape slide are both skipped. -/
theorem out_of_range_entries_skipped_witness :
    modify_presentation [[shapeNotes]] ([] ++ (5, [(0, "x")]) :: []) =
      modify_presentation [[shapeNotes]] ([] ++ []) ∧
    modify_presentation [[shapeNotes]] ([] ++ (0, [] ++ (3, "x") :: []) :: []) =
      modify_presentation [[shapeNotes]] ([] ++ (0, [] ++ []) :: []) :=
  ⟨out_of_range_entries_skipped.1 [[shapeNotes]] [] [] 5 [(0, "x")] (by norm_num),
   out_of_range_entries_skipped.2 [[shapeNotes]] [] [] 0 [] [] 3 "x" (by
      simp [shapeNotes])⟩

/-! ## C8 -/

theorem mapOpt_mem {α β : Type} {f : α → Option β} :
    ∀ {l : List α} {l' : List β}, mapOpt f l = some l' →
      ∀ a ∈ l, ∃ b, f a = some b ∧ b ∈ l' := by
  intro l
  induction l with
  | nil =>
    intro l' h a ha
    exact absurd ha (List.not_mem_nil a)
  | cons x t ih =>
    intro l' h a ha
    rcases hfx : f x with _ | b
    · simp only [mapOpt, hfx] at h
      exact Option.noConfusion h
    · rcases hmo : mapOpt f t with _ | bs
      · simp only [mapOpt, hfx, hmo] at h
        exact Option.noConfusion h
      · simp only [mapOpt, hfx, hmo, Option.some.injEq] at h
        rcases List.mem_cons.mp ha with rfl | hat
        · exact ⟨b, hfx, by rw [← h]; exact List.mem_cons_self b bs⟩
        · obtain ⟨b', hfb', hmem⟩ := ih hmo a hat
          exact ⟨b', hfb', by rw [← h]; exact List.mem_cons_of_mem b hmem⟩

theorem warning_strings_distinct : GROUP_1_WARNING ≠ GROUP_2_WARNING := by decide

/-- Decomposition of a successful `modify_presentation` run into its parts. -/
theorem modify_presentation_some {prs : List (List Shape)}
    {mods : List (ℕ × List (ℕ × String))} {w : List String} {acts : List (Entry × ℤ × ℚ)}
    (h : modify_presentation prs mods = some (w, acts)) :
    ∃ s1 s2 others,
      solveGroup (collectGroups prs mods).1 = some s1 ∧
      solveGroup (collectGroups prs mods).2.1 = some s2 ∧
      mapOpt (fun e =>
        (find_optimal_font_size [(e.text, e.shape)] MAX_FONT_SIZE MIN_FONT_SIZE 1).map
          (fun sz => (e, sz, (1 : ℚ)))) (collectGroups prs mods).2.2 = some others ∧
      w = (if ¬ (collectGroups prs mods).1.isEmpty ∧ s1 = MIN_FONT_SIZE
            then [GROUP_1_WARNING] else []) ++
          (if ¬ (collectGroups prs mods).2.1.isEmpty ∧ s2 = MIN_FONT_SIZE
            then [GROUP_2_WARNING] else []) ∧
      acts = ((collectGroups prs mods).1.map fun e => (e, s1, LINE_SPACING)) ++
          ((collectGroups prs mods).2.1.map fun e => (e, s2, LINE_SPACING)) ++ others := by
  rw [modify_presentation] at h
  set c := collectGroups prs mods with hc
  rcases hs1 : solveGroup c.1 with _ | s1
  · rw [modify_phase23, hs1] at h
    exact Option.noConfusion h
  · rcases hs2 : solveGroup c.2.1 with _ | s2
    · rw [modify_phase23, hs1, hs2] at h
      exact Option.noConfusion h
    · rcases hmo : mapOpt (fun e =>
          (find_optimal_font_size [(e.text, e.shape)] MAX_FONT_SIZE MIN_FONT_SIZE 1).map
            (fun sz => (e, sz, (1 : ℚ)))) c.2.2 with _ | others
      · rw [modify_phase23, hs1, hs2, hmo] at h
        exact Option.noConfusion h
      · rw [modify_phase23, hs1, hs2, hmo] at h
        simp only [Option.some.injEq, Prod.mk.injEq] at h
        exact ⟨s1, s2, others, rfl, rfl, hmo, h.1.symm, h.2.symm⟩

/-- C8: in a successful run the group-1 (resp. group-2) warning appears in the
warning list exactly when that group is non-empty and its solved size equals
`MIN_FONT_SIZE` — regardless of whether any member was genuinely forced below
a fitting candidate — and never for an empty group. -/
theorem group_warning_iff :
    ∀ (prs : List (List Shape)) (mods : List (ℕ × List (ℕ × String)))
      (w : List String) (acts : List (Entry × ℤ × ℚ)),
      modify_presentation prs mods = some (w, acts) →
      ((GROUP_1_WARNING ∈ w ↔ ¬ (collectGroups prs mods).1.isEmpty = true ∧
          solveGroup (collectGroups prs mods).1 = some MIN_FONT_SIZE) ∧
       (GROUP_2_WARNING ∈ w ↔ ¬ (collectGroups prs mods).2.1.isEmpty = true ∧
          solveGroup (collectGroups prs mods).2.1 = some MIN_FONT_SIZE)) := by
  intro prs mods w acts h
  obtain ⟨s1, s2, others, hs1, hs2, hmo, hw, hacts⟩ := modify_presentation_some h
  rw [hw]
  constructor
  · rw [List.mem_append]
    constructor
    · intro hmem
      rcases hmem with hmem | hmem
      · by_cases hA : ¬ (collectGroups prs mods).1.isEmpty = true ∧ s1 = MIN_FONT_SIZE
        · rw [hs1]
          exact ⟨hA.1, by rw [hA.2]⟩
        · rw [if_neg hA] at hmem
          exact absurd hmem (List.not_mem_nil _)
      · by_cases hB : ¬ (collectGroups prs mods).2.1.isEmpty = true ∧ s2 = MIN_FONT_SIZE
        · rw [if_pos hB] at hmem
          rw [List.mem_singleton] at hmem
          exact absurd hmem warning_strings_distinct
        · rw [if_neg hB] at hmem
          exact absurd hmem (List.not_mem_nil _)
    · intro hcond
      rw [hs1] at hcond
      obtain ⟨hne, hsz⟩ := hcond
      simp only [Option.some.injEq] at hsz
      left
      rw [if_pos ⟨hne, hsz⟩]
      exact List.mem_singleton.mpr rfl
  · rw [List.mem_append]
    constructor
    · intro hmem
      rcases hmem with hmem | hmem
      · by_cases hA : ¬ (collectGroups prs mods).1.isEmpty = true ∧ s1 = MIN_FONT_SIZE
        · rw [if_pos hA] at hmem
          rw [List.mem_singleton] at hmem
          exact absurd hmem warning_strings_distinct.symm
        · rw [if_neg hA] at hmem
          exact absurd hmem (List.not_mem_nil _)
      · by_cases hB : ¬ (collectGroups prs mods).2.1.isEmpty = true ∧ s2 = MIN_FONT_SIZE
        · rw [hs2]
          exact ⟨hB.1, by rw [hB.2]⟩
        · rw [if_neg hB] at hmem
          exact absurd hmem (List.not_mem_nil _)
    · intro hcond
      rw [hs2] at hcond
      obtain ⟨hne, hsz⟩ := hcond
      simp only [Option.some.injEq] at hsz
      right
      rw [if_pos ⟨hne, hsz⟩]
      exact List.mem_singleton.mpr rfl

/-- C8 (witness): the characterization applied to the empty batch, where both
groups are empty and no warning is emitted. -/
theorem group_warning_iff_witness :
    (GROUP_1_WARNING ∈ ([] : List String) ↔ ¬ (collectGroups [] []).1.isEmpty = true ∧
        solveGroup (collectGroups [] []).1 = some MIN_FONT_SIZE) ∧
    (GROUP_2_WARNING ∈ ([] : List String) ↔ ¬ (collectGroups [] []).2.1.isEmpty = true ∧
        solveGroup (collectGroups [] []).2.1 = some MIN_FONT_SIZE) :=
  group_warning_iff [] [] [] [] rfl

/-! ## C7 (amended) -/

/-- C7 (amended): in a successful run, every ungrouped ("other") frame is
applied at its individually solved font size with line spacing 1 — the floor
size when nothing above it fits — but no warning is reported for it: every
emitted warning string is one of the two group warnings. -/
theorem forced_individual_frame_floor_without_warning :
    ∀ (prs : List (List Shape)) (mods : List (ℕ × List (ℕ × String)))
      (w : List String) (acts : List (Entry × ℤ × ℚ)),
      modify_presentation prs mods = some (w, acts) →
      ((∀ s ∈ w, s = GROUP_1_WARNING ∨ s = GROUP_2_WARNING) ∧
       (∀ e ∈ (collectGroups prs mods).2.2, ∃ sz,
         find_optimal_font_size [(e.text, e.shape)] MAX_FONT_SIZE MIN_FONT_SIZE 1 =
           some sz ∧ (e, sz, (1 : ℚ)) ∈ acts)) := by
  intro prs mods w acts h
  obtain ⟨s1, s2, others, hs1, hs2, hmo, hw, hacts⟩ := modify_presentation_some h
  constructor
  · intro str hmem
    rw [hw, List.mem_append] at hmem
    rcases hmem with hmem | hmem
    · by_cases hA : ¬ (collectGroups prs mods).1.isEmpty = true ∧ s1 = MIN_FONT_SIZE
      · rw [if_pos hA] at hmem
        exact Or.inl (List.mem_singleton.mp hmem)
      · rw [if_neg hA] at hmem
        exact absurd hmem (List.not_mem_nil _)
    · by_cases hB : ¬ (collectGroups prs mods).2.1.isEmpty = true ∧ s2 = MIN_FONT_SIZE
      · rw [if_pos hB] at hmem
        exact Or.inr (List.mem_singleton.mp hmem)
      · rw [if_neg hB] at hmem
        exact absurd hmem (List.not_mem_nil _)
  · intro e he
    obtain ⟨b, hfb, hbmem⟩ := mapOpt_mem hmo e he
    obtain ⟨sz, hsz, rfl⟩ := Option.map_eq_some'.mp hfb
    refine ⟨sz, hsz, ?_⟩
    rw [hacts, List.append_assoc, List.mem_append]
    right
    rw [List.mem_append]
    right
    exact hbmem

/-- C7 (witness): the amended theorem applied to the forced-individual
scenario, where the sole ungrouped frame is applied at the floor size 8. -/
theorem forced_individual_frame_floor_without_warning_witness :
    (∀ s ∈ ([] : List String), s = GROUP_1_WARNING ∨ s = GROUP_2_WARNING) ∧
    (∀ e ∈ (collectGroups [[shapeNotes]] [(0, [(0, text2000)])]).2.2, ∃ sz,
      find_optimal_font_size [(e.text, e.shape)] MAX_FONT_SIZE MIN_FONT_SIZE 1 =
        some sz ∧ (e, sz, (1 : ℚ)) ∈
          [((⟨0, 0, text2000, shapeNotes⟩ : Entry), MIN_FONT_SIZE, (1 : ℚ))]) :=
  forced_individual_frame_floor_without_warning [[shapeNotes]] [(0, [(0, text2000)])]
    [] [(⟨0, 0, text2000, shapeNotes⟩, MIN_FONT_SIZE, 1)] modifyNotes

/-! ## C1 (amended): the solver computes the minimum of per-member best sizes -/

theorem estimate_defined {text : String} {fs w ls : ℚ} (hfs : fs ≠ 0) (hw : w ≠ 0) :
    ∃ h n, estimate_text_height text fs w ls = some (h, n) :=
  ⟨_, _, estimate_text_height_eq hfs hw⟩

theorem available_height_forms (sh : Shape) :
    sh.height * (1 - 15 / 100) = sh.height - sh.height * (15 / 100) := by ring

theorem sizeLoop_eq_find {t : String} {sh : Shape} {ls : ℚ} (hw : sh.width ≠ 0) :
    ∀ l : List ℤ, (∀ s ∈ l, 1 ≤ s) →
      sizeLoop t sh ls l = some (l.find? (fun s => fitsAt t sh s ls)) := by
  intro l
  induction l with
  | nil => intro _; rfl
  | cons a rest ih =>
    intro hall
    have ha : 1 ≤ a := hall a (List.mem_cons_self a rest)
    have hane : ((a : ℚ)) ≠ 0 := Int.cast_ne_zero.mpr (by omega)
    obtain ⟨h, n, hest⟩ := @estimate_defined t ((a : ℤ) : ℚ) sh.width ls hane hw
    by_cases hfit : h ≤ sh.height - sh.height * (15 / 100)
    · rw [sizeLoop_cons_fit hest hfit]
      have hfa : fitsAt t sh a ls = true := by
        simp only [fitsAt, hest, decide_eq_true_eq]
        rw [available_height_forms]
        exact hfit
      simp only [List.find?, hfa]
    · rw [sizeLoop_cons_nofit hest hfit]
      have hfa : fitsAt t sh a ls = false := by
        simp only [fitsAt, hest]
        rw [decide_eq_false_iff_not, available_height_forms]
        exact hfit
      rw [ih (fun s hs => hall s (List.mem_cons_of_mem a hs))]
      simp only [List.find?, hfa]

theorem bestSizeSpec_bounds {t : String} {sh : Shape} {min_size max_size : ℤ} {ls : ℚ}
    (hmm : min_size ≤ max_size) :
    min_size ≤ bestSizeSpec t sh min_size max_size ls ∧
      bestSizeSpec t sh min_size max_size ls ≤ max_size := by
  rw [bestSizeSpec]
  rcases hf : (rangeDown max_size min_size).find? (fun s => fitsAt t sh s ls) with _ | s
  · exact ⟨le_refl _, hmm⟩
  · obtain ⟨h1, h2⟩ := mem_rangeDown.mp (List.mem_of_find?_eq_some hf)
    exact ⟨h1, h2⟩

theorem groupLoop_eq_foldl {max_size min_size : ℤ} {ls : ℚ}
    (hmin : 1 ≤ min_size) (hmm : min_size ≤ max_size) :
    ∀ (l : List (String × Shape)) (acc : ℤ), min_size ≤ acc →
      (∀ p ∈ l, p.1 ≠ "" ∧ p.2.hasTextFrame = true ∧ p.2.width ≠ 0) →
      groupLoop max_size min_size ls l acc =
        some (l.foldl (fun a p => min a (bestSizeSpec p.1 p.2 min_size max_size ls)) acc) := by
  intro l
  induction l with
  | nil => intro acc _ _; rfl
  | cons p rest ih =>
    obtain ⟨t, sh⟩ := p
    intro acc hacc hall
    obtain ⟨ht, htf, hwne⟩ := hall (t, sh) (List.mem_cons_self _ _)
    have hskip : ¬ (t = "" ∨ sh.hasTextFrame = false) := by
      rintro (h | h)
      · exact ht h
      · rw [htf] at h
        exact Bool.noConfusion h
    have hrange : ∀ s ∈ rangeDown max_size min_size, (1 : ℤ) ≤ s :=
      fun s hs => le_trans hmin (mem_rangeDown.mp hs).1
    have hsl := @sizeLoop_eq_find t sh ls hwne (rangeDown max_size min_size) hrange
    rcases hf : (rangeDown max_size min_size).find? (fun s => fitsAt t sh s ls) with _ | s
    · rw [hf] at hsl
      rw [groupLoop_cons_forced hskip hsl, List.foldl_cons]
      have hbest : bestSizeSpec t sh min_size max_size ls = min_size := by
        rw [bestSizeSpec, hf]
        rfl
      rw [hbest, min_eq_right hacc]
      exact ih min_size (le_refl _) (fun q hq => hall q (List.mem_cons_of_mem _ hq))
    · rw [hf] at hsl
      rw [groupLoop_cons_break hskip hsl, List.foldl_cons]
      have hbest : bestSizeSpec t sh min_size max_size ls = s := by
        rw [bestSizeSpec, hf]
        rfl
      have hs1 : min_size ≤ s := (mem_rangeDown.mp (List.mem_of_find?_eq_some hf)).1
      rw [hbest]
      exact ih (min acc s) (le_min hacc hs1) (fun q hq => hall q (List.mem_cons_of_mem _ hq))

theorem foldl_min_le_init : ∀ (l : List ℤ) (a : ℤ), l.foldl min a ≤ a := by
  intro l
  induction l with
  | nil => intro a; exact le_refl a
  | cons x t ih =>
    intro a
    rw [List.foldl_cons]
    exact le_trans (ih (min a x)) (min_le_left a x)

theorem foldl_min_le_mem : ∀ (l : List ℤ) (a x : ℤ), x ∈ l → l.foldl min a ≤ x := by
  intro l
  induction l with
  | nil => intro a x hx; exact absurd hx (List.not_mem_nil x)
  | cons y t ih =>
    intro a x hx
    rw [List.foldl_cons]
    rcases List.mem_cons.mp hx with rfl | hxt
    · exact le_trans (foldl_min_le_init t (min a x)) (min_le_right a x)
    · exact ih (min a y) x hxt

theorem foldl_min_cases : ∀ (l : List ℤ) (a : ℤ), l.foldl min a = a ∨ l.foldl min a ∈ l := by
  intro l
  induction l with
  | nil => intro a; exact Or.inl rfl
  | cons x t ih =>
    intro a
    rw [List.foldl_cons]
    rcases ih (min a x) with h | h
    · rcases le_total a x with hax | hxa
      · left
        rw [h, min_eq_left hax]
      · right
        rw [h, min_eq_right hxa]
        exact List.mem_cons_self x t
    · right
      exact List.mem_cons_of_mem x h

/-- C1 (amended): for a non-empty list of members each with non-empty text, a
text frame and nonzero width, and `1 ≤ minSize ≤ maxSize`, the solver returns
exactly the minimum over the members of that member\'s best size, where a best
size follows the spec\'s formula (`bestSizeSpec`: the largest candidate in
`[minSize, maxSize]` scanned downward whose estimated height fits within
`height * (1 - 0.15)`, else `minSize`). Members with empty text or no text
frame are excluded: the code skips them (see the counterexample). -/
theorem solver_returns_min_of_best_sizes :
    ∀ (members : List (String × Shape)) (max_size min_size : ℤ) (ls : ℚ),
      members ≠ [] → 1 ≤ min_size → min_size ≤ max_size →
      (∀ p ∈ members, p.1 ≠ "" ∧ p.2.hasTextFrame = true ∧ p.2.width ≠ 0) →
      ∃ m, find_optimal_font_size members max_size min_size ls = some m ∧
        m ∈ members.map (fun p => bestSizeSpec p.1 p.2 min_size max_size ls) ∧
        ∀ b ∈ members.map (fun p => bestSizeSpec p.1 p.2 min_size max_size ls), m ≤ b := by
  intro members max_size min_size ls hne hmin hmm hall
  have hemp : members.isEmpty = false := List.isEmpty_eq_false.mpr hne
  have hfold := @groupLoop_eq_foldl max_size min_size ls hmin hmm members max_size hmm hall
  have hfm : members.foldl (fun a p => min a (bestSizeSpec p.1 p.2 min_size max_size ls))
        max_size =
      (members.map (fun p => bestSizeSpec p.1 p.2 min_size max_size ls)).foldl min max_size :=
    (List.foldl_map _ _ _ _).symm
  refine ⟨members.foldl (fun a p => min a (bestSizeSpec p.1 p.2 min_size max_size ls))
    max_size, ?_, ?_, ?_⟩
  · rw [find_optimal_font_size, hemp]
    simp only [Bool.false_eq_true, if_false]
    exact hfold
  · rw [hfm]
    rcases foldl_min_cases
        (members.map (fun p => bestSizeSpec p.1 p.2 min_size max_size ls)) max_size with h | h
    · cases members with
      | nil => exact absurd rfl hne
      | cons p rest =>
        have hb0 : bestSizeSpec p.1 p.2 min_size max_size ls ∈
            (p :: rest).map (fun q => bestSizeSpec q.1 q.2 min_size max_size ls) :=
          List.mem_map_of_mem _ (List.mem_cons_self p rest)
        have hle := foldl_min_le_mem _ max_size _ hb0
        rw [h] at hle ⊢
        have hbm : bestSizeSpec p.1 p.2 min_size max_size ls = max_size :=
          le_antisymm (bestSizeSpec_bounds hmm).2 hle
        rw [hbm] at hb0
        exact hb0
    · exact h
  · intro b hb
    rw [hfm]
    exact foldl_min_le_mem _ max_size b hb

/-- C1 (witness): the amended theorem on the one-member group [("x", wide)]
with `min = 8`, `max = 14`. -/
theorem solver_returns_min_of_best_sizes_witness :
    ∃ m, find_optimal_font_size [("x", shapeWide)] 14 8 LINE_SPACING = some m ∧
      m ∈ [("x", shapeWide)].map (fun p => bestSizeSpec p.1 p.2 8 14 LINE_SPACING) ∧
      ∀ b ∈ [("x", shapeWide)].map (fun p => bestSizeSpec p.1 p.2 8 14 LINE_SPACING), m ≤ b :=
  solver_returns_min_of_best_sizes [("x", shapeWide)] 14 8 LINE_SPACING
    (List.cons_ne_nil _ _) (by norm_num) (by norm_num) (by
      intro p hp
      rw [List.mem_singleton] at hp
      rw [hp]
      refine ⟨by decide, rfl, by norm_num [shapeWide]⟩)

/-! ## C6 (amended): monotonicity for non-negative line spacing -/

/-- C6 (amended): for fixed text, frame width and non-negative line spacing,
the estimated height is non-decreasing in the font size over positive sizes:
whenever both estimates are defined, `s1 ≤ s2` gives `height1 ≤ height2`. (For
negative line spacing this fails; see the counterexample.) -/
theorem estimator_monotone_in_font_size :
    ∀ (text : String) (w ls s1 s2 h1v h2v : ℚ) (n1 n2 : ℤ),
      0 ≤ ls → 0 < s1 → s1 ≤ s2 →
      estimate_text_height text s1 w ls = some (h1v, n1) →
      estimate_text_height text s2 w ls = some (h2v, n2) →
      h1v ≤ h2v := by
  intro text w ls s1 s2 h1v h2v n1 n2 hls hs1 hs12 e1 e2
  have hs1ne : s1 ≠ 0 := ne_of_gt hs1
  have hs2 : (0 : ℚ) < s2 := lt_of_lt_of_le hs1 hs12
  have hs2ne : s2 ≠ 0 := ne_of_gt hs2
  by_cases hw : w = 0
  · rw [hw] at e1
    simp [estimate_text_height, hs1ne] at e1
  · rw [estimate_text_height_eq hs1ne hw] at e1
    rw [estimate_text_height_eq hs2ne hw] at e2
    simp only [Option.some.injEq, Prod.mk.injEq] at e1 e2
    rw [← e1.1, ← e2.1]
    have hL0 : (0 : ℚ) ≤ ((text.length : ℤ) : ℚ) := by positivity
    have hN0 : (0 : ℤ) ≤ countNl text := Int.ofNat_nonneg _
    have hT : max (countNl text + 1)
          (Int.ceil (((text.length : ℤ) : ℚ) / (w * 72 * (9 / 10) / (s1 * (1 / 2))))) ≤
        max (countNl text + 1)
          (Int.ceil (((text.length : ℤ) : ℚ) / (w * 72 * (9 / 10) / (s2 * (1 / 2))))) := by
      rcases lt_trichotomy w 0 with hwn | hw0 | hwp
      · have hden : w * 72 * (9 / 10) < 0 := by nlinarith
        have c1 : Int.ceil (((text.length : ℤ) : ℚ) /
            (w * 72 * (9 / 10) / (s1 * (1 / 2)))) ≤ 0 := by
          rw [Int.ceil_le, div_div_eq_mul_div]
          push_cast
          refine div_nonpos_iff.mpr (Or.inl ⟨?_, le_of_lt hden⟩)
          exact mul_nonneg (by positivity) (mul_nonneg (le_of_lt hs1) (by norm_num))
        have c2 : Int.ceil (((text.length : ℤ) : ℚ) /
            (w * 72 * (9 / 10) / (s2 * (1 / 2)))) ≤ 0 := by
          rw [Int.ceil_le, div_div_eq_mul_div]
          push_cast
          refine div_nonpos_iff.mpr (Or.inl ⟨?_, le_of_lt hden⟩)
          exact mul_nonneg (by positivity) (mul_nonneg (le_of_lt hs2) (by norm_num))
        rw [max_eq_left (le_trans c1 (by omega)), max_eq_left (le_trans c2 (by omega))]
      · exact absurd hw0 hw
      · have hden : (0 : ℚ) < w * 72 * (9 / 10) := by positivity
        apply max_le_max (le_refl _)
        apply Int.ceil_le_ceil
        rw [div_div_eq_mul_div, div_div_eq_mul_div]
        apply div_le_div_of_nonneg_right ?_ (le_of_lt hden)
        case _ =>
          apply mul_le_mul_of_nonneg_left ?_ hL0
          nlinarith
    have hcast : ((max (countNl text + 1)
          (Int.ceil (((text.length : ℤ) : ℚ) / (w * 72 * (9 / 10) / (s1 * (1 / 2))))) : ℤ) : ℚ) ≤
        ((max (countNl text + 1)
          (Int.ceil (((text.length : ℤ) : ℚ) / (w * 72 * (9 / 10) / (s2 * (1 / 2))))) : ℤ) : ℚ) :=
      Int.cast_le.mpr hT
    have hT1nn : (0 : ℚ) ≤ ((max (countNl text + 1)
        (Int.ceil (((text.length : ℤ) : ℚ) / (w * 72 * (9 / 10) / (s1 * (1 / 2))))) : ℤ) : ℚ) := by
      have h1 : (0 : ℤ) ≤ max (countNl text + 1)
          (Int.ceil (((text.length : ℤ) : ℚ) / (w * 72 * (9 / 10) / (s1 * (1 / 2))))) :=
        le_trans (by omega) (le_max_left _ _)
      exact_mod_cast h1
    have hsl12 : s1 * ls ≤ s2 * ls := mul_le_mul_of_nonneg_right hs12 hls
    have hsl0 : (0 : ℚ) ≤ s1 * ls := mul_nonneg (le_of_lt hs1) hls
    have hmul : ((max (countNl text + 1)
          (Int.ceil (((text.length : ℤ) : ℚ) / (w * 72 * (9 / 10) / (s1 * (1 / 2))))) : ℤ) : ℚ) *
          (s1 * ls) ≤
        ((max (countNl text + 1)
          (Int.ceil (((text.length : ℤ) : ℚ) / (w * 72 * (9 / 10) / (s2 * (1 / 2))))) : ℤ) : ℚ) *
          (s2 * ls) :=
      mul_le_mul hcast hsl12 hsl0 (le_trans hT1nn hcast)
    exact div_le_div_of_nonneg_right hmul (by norm_num)

/-- C6 (witness): the amended monotonicity applied to "x" in the wide frame at
sizes 14 ≤ 14 with line spacing 1.2. -/
theorem estimator_monotone_in_font_size_witness : (7 : ℚ) / 30 ≤ 7 / 30 :=
  estimator_monotone_in_font_size "x" shapeWide.width LINE_SPACING
    (((14 : ℤ)) : ℚ) (((14 : ℤ)) : ℚ) (7 / 30) (7 / 30) 1 1
    (by norm_num [LINE_SPACING]) (by norm_num) (le_refl _) est_x_wide_14 est_x_wide_14

/-! ## C3 (amended): conditional idempotence of bullet normalization -/

/-- Whether a (stripped) line begins with one of the recognized markers. -/
def startsMarker (l : List Char) : Bool :=
  hasPre ['•'] l || hasPre ['-'] l || hasPre ['*'] l

theorem hasPre_pair_of_false {a b : Char} {l : List Char} (h : hasPre [a] l = false) :
    hasPre [a, b] l = false := by
  cases l with
  | nil => rfl
  | cons x t =>
    simp only [hasPre, Bool.and_true] at h
    simp only [hasPre, h, Bool.false_and]

theorem cleanLine_id {l : List Char} (h : startsMarker l = false) : cleanLine l = l := by
  simp only [startsMarker, Bool.or_eq_false_iff] at h
  obtain ⟨⟨h1, h2⟩, h3⟩ := h
  simp only [cleanLine, hasPre_pair_of_false h1, hasPre_pair_of_false h2,
    hasPre_pair_of_false h3, h1, h2, h3, Bool.false_eq_true, if_false]

theorem dropWhile_idem (p : Char → Bool) :
    ∀ l : List Char, (l.dropWhile p).dropWhile p = l.dropWhile p := by
  intro l
  induction l with
  | nil => rfl
  | cons a t ih =>
    rw [List.dropWhile_cons]
    by_cases h : p a = true
    · rw [if_pos h]
      exact ih
    · rw [if_neg h, List.dropWhile_cons, if_neg h]

theorem dropWhile_head_false (p : Char → Bool) :
    ∀ (l : List Char) (a : Char), (l.dropWhile p).head? = some a → p a = false := by
  intro l
  induction l with
  | nil => intro a h; exact Option.noConfusion h
  | cons x t ih =>
    intro a h
    rw [List.dropWhile_cons] at h
    by_cases hx : p x = true
    · rw [if_pos hx] at h
      exact ih a h
    · rw [if_neg hx] at h
      simp only [List.head?_cons, Option.some.injEq] at h
      rw [← h]
      exact Bool.eq_false_iff.mpr hx

theorem dropWhile_of_head_false (p : Char → Bool) {l : List Char}
    (h : ∀ a, l.head? = some a → p a = false) : l.dropWhile p = l := by
  cases l with
  | nil => rfl
  | cons x t =>
    rw [List.dropWhile_cons, h x rfl]
    simp only [Bool.false_eq_true, if_false]

theorem getLast?_dropWhile (p : Char → Bool) :
    ∀ l : List Char, l.dropWhile p = [] ∨ (l.dropWhile p).getLast? = l.getLast? := by
  intro l
  induction l with
  | nil => exact Or.inl rfl
  | cons x t ih =>
    rw [List.dropWhile_cons]
    by_cases hx : p x = true
    · rw [if_pos hx]
      cases t with
      | nil => exact Or.inl rfl
      | cons y u =>
        rcases ih with h | h
        · exact Or.inl h
        · exact Or.inr (by rw [h, List.getLast?_cons_cons])
    · rw [if_neg hx]
      exact Or.inr rfl

theorem stripChars_back_clean (l : List Char) :
    (stripChars l).reverse.dropWhile pyIsSpace = (stripChars l).reverse := by
  rw [stripChars, List.reverse_reverse]
  exact dropWhile_idem pyIsSpace _

theorem stripChars_front_clean (l : List Char) :
    (stripChars l).dropWhile pyIsSpace = stripChars l := by
  rcases hY : (l.dropWhile pyIsSpace).reverse.dropWhile pyIsSpace with _ | ⟨y, ys⟩
  · rw [stripChars, hY]
    rfl
  · apply dropWhile_of_head_false
    intro a ha
    rw [stripChars, List.head?_reverse, hY] at ha
    rcases getLast?_dropWhile pyIsSpace (l.dropWhile pyIsSpace).reverse with h | h
    · rw [hY] at h
      exact List.noConfusion h
    · rw [hY] at h
      rw [h, List.getLast?_reverse] at ha
      exact dropWhile_head_false pyIsSpace l a ha

theorem stripChars_idem (l : List Char) : stripChars (stripChars l) = stripChars l := by
  conv_lhs => rw [stripChars]
  rw [stripChars_front_clean, stripChars_back_clean, List.reverse_reverse]

theorem mem_of_mem_dropWhile {p : Char → Bool} :
    ∀ {l : List Char} {x : Char}, x ∈ l.dropWhile p → x ∈ l := by
  intro l
  induction l with
  | nil => intro x h; exact h
  | cons a t ih =>
    intro x h
    rw [List.dropWhile_cons] at h
    by_cases ha : p a = true
    · rw [if_pos ha] at h
      exact List.mem_cons_of_mem a (ih h)
    · rw [if_neg ha] at h
      exact h

theorem mem_of_mem_stripChars {l : List Char} {x : Char} (h : x ∈ stripChars l) : x ∈ l := by
  rw [stripChars, List.mem_reverse] at h
  have h2 := mem_of_mem_dropWhile h
  rw [List.mem_reverse] at h2
  exact mem_of_mem_dropWhile h2

theorem splitNl_ne_nil : ∀ l : List Char, splitNl l ≠ [] := by
  intro l
  cases l with
  | nil => simp [splitNl]
  | cons c rest =>
    simp only [splitNl]
    by_cases h : c = '\n'
    · simp [h]
    · simp only [if_neg h]
      rcases hsp : splitNl rest with _ | ⟨r, ls⟩
      · simp
      · simp

theorem mem_splitNl_no_nl : ∀ (l : List Char) (x : List Char), x ∈ splitNl l → '\n' ∉ x := by
  intro l
  induction l with
  | nil =>
    intro x hx
    simp only [splitNl, List.mem_singleton] at hx
    rw [hx]
    exact List.not_mem_nil _
  | cons c rest ih =>
    intro x hx
    by_cases h : c = '\n'
    · simp only [splitNl, if_pos h] at hx
      rcases List.mem_cons.mp hx with rfl | hx2
      · exact List.not_mem_nil _
      · exact ih x hx2
    · simp only [splitNl, if_neg h] at hx
      rcases hsp : splitNl rest with _ | ⟨r, ls⟩
      · exact absurd hsp (splitNl_ne_nil rest)
      · rw [hsp] at hx
        rcases List.mem_cons.mp hx with rfl | hx2
        · intro hmem
          rcases List.mem_cons.mp hmem with h1 | h1
          · exact h h1.symm
          · exact ih r (by rw [hsp]; exact List.mem_cons_self _ _) h1
        · exact ih x (by rw [hsp]; exact List.mem_cons_of_mem _ hx2)

theorem splitNl_no_nl : ∀ {l : List Char}, '\n' ∉ l → splitNl l = [l] := by
  intro l
  induction l with
  | nil => intro _; rfl
  | cons c rest ih =>
    intro h
    have hc : ¬ c = '\n' := fun he => h (by rw [← he]; exact List.mem_cons_self c rest)
    have hr : '\n' ∉ rest := fun hm => h (List.mem_cons_of_mem c hm)
    simp only [splitNl, if_neg hc, ih hr]

theorem splitNl_append_nl : ∀ {l : List Char}, '\n' ∉ l → ∀ m : List Char,
    splitNl (l ++ '\n' :: m) = l :: splitNl m := by
  intro l
  induction l with
  | nil => intro _ m; simp [splitNl]
  | cons c rest ih =>
    intro h m
    have hc : ¬ c = '\n' := fun he => h (by rw [← he]; exact List.mem_cons_self c rest)
    have hr : '\n' ∉ rest := fun hm => h (List.mem_cons_of_mem c hm)
    rw [List.cons_append]
    simp only [splitNl, if_neg hc, ih hr m]

theorem splitNl_joinNl : ∀ L : List (List Char), L ≠ [] → (∀ x ∈ L, '\n' ∉ x) →
    splitNl (joinNl L) = L := by
  intro L
  induction L with
  | nil => intro h _; exact absurd rfl h
  | cons x t ih =>
    intro _ hall
    cases t with
    | nil => exact splitNl_no_nl (hall x (List.mem_cons_self _ _))
    | cons y u =>
      rw [joinNl, splitNl_append_nl (hall x (List.mem_cons_self _ _)),
        ih (List.cons_ne_nil y u) (fun z hz => hall z (List.mem_cons_of_mem _ hz))]

theorem filterMap_eq_self {f : List Char → Option (List Char)} :
    ∀ {L : List (List Char)}, (∀ x ∈ L, f x = some x) → L.filterMap f = L := by
  intro L
  induction L with
  | nil => intro _; rfl
  | cons x t ih =>
    intro hall
    simp only [List.filterMap_cons, hall x (List.mem_cons_self x t)]
    rw [ih (fun z hz => hall z (List.mem_cons_of_mem _ hz))]

theorem joinNl_ne_nil {c0 : List Char} {crest : List (List Char)} (h : c0 ≠ []) :
    joinNl (c0 :: crest) ≠ [] := by
  cases crest with
  | nil => exact h
  | cons y u =>
    rw [joinNl]
    intro he
    rcases List.append_eq_nil.mp he with ⟨h1, h2⟩
    exact h h1

/-- The second pass of `clean_bullet_text` is the identity on the join of a
list of already-stripped, non-blank, marker-free, newline-free lines. -/
theorem clean_bullet_pass2 (L : List (List Char))
    (hL : ∀ x ∈ L, stripChars x = x ∧ x ≠ [] ∧ startsMarker x = false ∧ '\n' ∉ x) :
    clean_bullet_text (String.mk (joinNl L)) = String.mk (joinNl L) := by
  rcases L with _ | ⟨c0, crest⟩
  · rfl
  · have hc0 := hL c0 (List.mem_cons_self _ _)
    have hne : String.mk (joinNl (c0 :: crest)) ≠ "" := by
      intro he
      have hd := congrArg String.data he
      exact joinNl_ne_nil hc0.2.1 hd
    have hfm : List.filterMap
        (fun l => if stripChars l = [] then none else some (cleanLine (stripChars l)))
        (c0 :: crest) = c0 :: crest :=
      filterMap_eq_self (fun x hx => by
        obtain ⟨hs, hn, hm, -⟩ := hL x hx
        rw [hs, if_neg hn, cleanLine_id hm])
    simp only [clean_bullet_text, if_neg hne]
    rw [splitNl_joinNl (c0 :: crest) (List.cons_ne_nil _ _) (fun x hx => (hL x hx).2.2.2),
      hfm]

/-- C3 (amended): bullet normalization is idempotent for every string none of
whose stripped lines begins with a recognized marker (`•`, `-`, `*`); in
general a second application strips a second marker (see the counterexample). -/
theorem clean_bullet_text_idempotent_of_no_markers :
    ∀ t : String, (∀ l ∈ splitNl t.data, startsMarker (stripChars l) = false) →
      clean_bullet_text (clean_bullet_text t) = clean_bullet_text t := by
  intro t hmk
  by_cases ht : t = ""
  · rw [ht]
    rfl
  · have hct : clean_bullet_text t = String.mk (joinNl ((splitNl t.data).filterMap
        (fun l => if stripChars l = [] then none else some (cleanLine (stripChars l))))) := by
      simp only [clean_bullet_text, if_neg ht]
    rw [hct]
    apply clean_bullet_pass2
    intro x hx
    obtain ⟨l, hl, hgl⟩ := List.mem_filterMap.mp hx
    by_cases hsl : stripChars l = []
    · rw [if_pos hsl] at hgl
      exact Option.noConfusion hgl
    · rw [if_neg hsl] at hgl
      have hmarker := hmk l hl
      rw [cleanLine_id hmarker] at hgl
      obtain rfl := Option.some.inj hgl
      refine ⟨stripChars_idem l, hsl, hmarker, ?_⟩
      intro hnl
      exact mem_splitNl_no_nl t.data l hl (mem_of_mem_stripChars hnl)

/-- C3 (witness): idempotence on the marker-free string "hello\nworld". -/
theorem clean_bullet_text_idempotent_witness :
    clean_bullet_text (clean_bullet_text "hello\nworld") =
      clean_bullet_text "hello\nworld" :=
  clean_bullet_text_idempotent_of_no_markers "hello\nworld" (by decide)

end PptxMcp
